import Mathlib

/-
  Verification development for the rate-confirmation text parser
  (parser.ts).  The parser is shallowly embedded: JavaScript strings are
  modelled as List Char, the regular expressions of the PATTERNS table are
  transcribed into an explicit syntax tree, and a backtracking matcher with
  JavaScript semantics (leftmost match, ordered alternation, greedy and lazy
  bounded repetition, word boundaries, case folding) executes them.  All
  functions are total; the matcher carries a fuel argument that is far above
  what these patterns can consume on any input they are run on.
-/

set_option maxRecDepth 20000
set_option maxHeartbeats 4000000

namespace Dakota

/-- Convert a Lean string literal to the List Char model of a JS string. -/
def strL (s : String) : List Char := s.data

/-- ASCII lower-casing, as JavaScript toLowerCase acts on these documents. -/
def lowChar (c : Char) : Char :=
  if 'A' ≤ c ∧ c ≤ 'Z' then Char.ofNat (c.toNat + 32) else c

/-- ASCII upper-casing, as JavaScript toUpperCase acts on these documents. -/
def upChar (c : Char) : Char :=
  if 'a' ≤ c ∧ c ≤ 'z' then Char.ofNat (c.toNat - 32) else c

def lowStr (l : List Char) : List Char := l.map lowChar

def upStr (l : List Char) : List Char := l.map upChar

def isDigitCh (c : Char) : Bool := decide ('0' ≤ c ∧ c ≤ '9')

def isUpperAZ (c : Char) : Bool := decide ('A' ≤ c ∧ c ≤ 'Z')

def isLowerAZ (c : Char) : Bool := decide ('a' ≤ c ∧ c ≤ 'z')

/-- Word characters for the regex metacharacter backslash-b. -/
def isWordCh (c : Char) : Bool := isDigitCh c || isUpperAZ c || isLowerAZ c || c = '_'

/-- JavaScript whitespace (the WhiteSpace and LineTerminator productions). -/
def isJsSpace (c : Char) : Bool :=
  c = ' ' || c = '\t' || c = '\n' || c = '\r' || c = '\x0b' || c = '\x0c' ||
  c = Char.ofNat 160 || c = Char.ofNat 8232 || c = Char.ofNat 8233 || c = Char.ofNat 65279

/-- JavaScript String.prototype.trim. -/
def jsTrim (l : List Char) : List Char :=
  ((l.dropWhile isJsSpace).reverse.dropWhile isJsSpace).reverse

/-- Does hay start with pre (exact characters). -/
def startsW : List Char → List Char → Bool
  | _, [] => true
  | [], _ :: _ => false
  | c :: h, d :: s => c = d && startsW h s

/-- JavaScript String.prototype.includes: substring containment. -/
def hasSub (hay sub : List Char) : Bool :=
  if startsW hay sub then true else
    match hay with
    | [] => false
    | _ :: t => hasSub t sub

/-- Index search from a running counter, for String.prototype.indexOf. -/
def jsIndexOfAux (sub : List Char) : List Char → Nat → Option Nat
  | hay, i =>
    if startsW hay sub then some i else
      match hay with
      | [] => none
      | _ :: t => jsIndexOfAux sub t (i + 1)

/-- JavaScript String.prototype.indexOf with a fromIndex; none models -1. -/
def jsIndexOf (hay sub : List Char) (fromIdx : Nat) : Option Nat :=
  jsIndexOfAux sub (hay.drop fromIdx) fromIdx

/-- JavaScript String.prototype.substring with start below stop. -/
def sliceN (l : List Char) (s e : Nat) : List Char := (l.drop s).take (e - s)

/-- JavaScript String.prototype.split at a single character. -/
def splitCh (c : Char) : List Char → List (List Char)
  | [] => [[]]
  | d :: t =>
    let r := splitCh c t
    if d = c then [] :: r else
      match r with
      | h :: rt => (d :: h) :: rt
      | [] => [[d]]

/-- JavaScript String.prototype.padStart with a pad character. -/
def padStart (n : Nat) (p : Char) (l : List Char) : List Char :=
  List.replicate (n - l.length) p ++ l

def digitsToNat (l : List Char) : Nat :=
  l.foldl (fun a c => a * 10 + (c.toNat - 48)) 0

/-- JavaScript parseInt(s, 10); none models NaN.  (The exotic forms the
    parser can never feed it - exponents, hex - are not modelled.) -/
def jsParseInt (l : List Char) : Option Int :=
  let s := l.dropWhile isJsSpace
  let sgn : Int := match s with | '-' :: _ => -1 | _ => 1
  let s := match s with | '-' :: t => t | '+' :: t => t | _ => s
  let ds := s.takeWhile isDigitCh
  if ds.isEmpty then none else some (sgn * (digitsToNat ds : Int))

/-- An exact decimal value mant / 10 ^ scale.  The values parseFloat
    produces from the rate captures (digits with at most two decimals) are
    represented exactly, so comparisons agree with the JS number. -/
structure JsNum where
  mant : Int
  scale : Nat
deriving DecidableEq, Repr

def tenPow : Nat → Int
  | 0 => 1
  | n + 1 => 10 * tenPow n

/-- The comparison num less-than n used by the scoring. -/
def JsNum.ltNat (a : JsNum) (n : Nat) : Prop := a.mant < (n : Int) * tenPow a.scale

instance (a : JsNum) (n : Nat) : Decidable (a.ltNat n) :=
  inferInstanceAs (Decidable (_ < _))

/-- JavaScript parseFloat; none models NaN.  Handles sign, integer and
    fraction digits, which covers every string the parser can feed it
    (captures of the rate patterns with commas removed). -/
def jsParseFloat (l : List Char) : Option JsNum :=
  let s := l.dropWhile isJsSpace
  let sgn : Int := match s with | '-' :: _ => -1 | _ => 1
  let s := match s with | '-' :: t => t | '+' :: t => t | _ => s
  let ip := s.takeWhile isDigitCh
  let rest := s.drop ip.length
  let fp := match rest with | '.' :: t => t.takeWhile isDigitCh | _ => []
  if ip.isEmpty && fp.isEmpty then none
  else some ⟨sgn * ((digitsToNat ip : Int) * tenPow fp.length + (digitsToNat fp : Int)),
    fp.length⟩

/-- Is Number(s) NaN, for the military-time check in normalizeTime.  Number
    of the empty or all-blank string is 0, not NaN; otherwise the string
    must be a signed decimal literal.  (Hex and exponent forms, which the
    parser can never feed it, are not modelled.) -/
def jsNumberIsNaN (l : List Char) : Bool :=
  let s := jsTrim l
  if s.isEmpty then false else
    let s := match s with | '-' :: t => t | '+' :: t => t | _ => s
    let ok := match splitCh '.' s with
      | [a] => !a.isEmpty && a.all isDigitCh
      | [a, b] => (!a.isEmpty || !b.isEmpty) && a.all isDigitCh && b.all isDigitCh
      | _ => false
    !ok

/-- JavaScript Int.toString with NaN (none) rendered as the string NaN. -/
def jsIntToStr : Option Int → List Char
  | none => strL ("NaN")
  | some i => (toString i).data

def natAbsDiff (a b : Nat) : Nat := if a ≤ b then b - a else a - b

/-! ## Regular expressions: syntax and a JS-faithful backtracking matcher -/

/-- Regex syntax tree: the fragment used by the PATTERNS table. rep is
    bounded repetition with a minimum, an optional maximum and a lazy flag;
    grp is a numbered capturing group; wb is a word boundary. -/
inductive RE where
  | eps : RE
  | cls : (Char → Bool) → RE
  | cat : RE → RE → RE
  | alt : RE → RE → RE
  | rep : RE → Nat → Option Nat → Bool → RE
  | grp : Nat → RE → RE
  | wb  : RE

/-- Continuation instructions of the backtracking matcher. -/
inductive Inst where
  | is (r : RE)
  | iprog (pos0 : Nat)
  | iclose (gi : Nat) (start : Nat)

/-- Character-class test under optional case folding (the i flag). -/
def testCls (ci : Bool) (p : Char → Bool) (c : Char) : Bool :=
  p c || (ci && (p (lowChar c) || p (upChar c)))

def wordBoundaryAt (orig : List Char) (pos : Nat) : Bool :=
  let prevW := match pos with
    | 0 => false
    | p + 1 => match orig.drop p with | c :: _ => isWordCh c | [] => false
  let nextW := match orig.drop pos with | c :: _ => isWordCh c | [] => false
  prevW != nextW

def decOpt : Option Nat → Option Nat
  | none => none
  | some 0 => some 0
  | some (m + 1) => some m

/-- Backtracking matcher.  Given the instruction stack, the current
    position, the remaining input and the captures recorded so far, it
    returns the end position and captures of the preferred match, exploring
    alternatives in JS order: an alternation prefers its left branch, a
    greedy repetition prefers one more iteration, a lazy one prefers to
    leave the loop, and an optional iteration that consumed nothing ends
    the loop.  Fuel only bounds the recursion depth. -/
def runInsts (orig : List Char) (ci : Bool) :
    Nat → List Inst → Nat → List Char → List (Nat × Nat × Nat) →
    Option (Nat × List (Nat × Nat × Nat))
  | 0, _, _, _, _ => none
  | _ + 1, [], pos, _, caps => some (pos, caps)
  | f + 1, Inst.is RE.eps :: k, pos, s, caps => runInsts orig ci f k pos s caps
  | f + 1, Inst.is (RE.cls p) :: k, pos, s, caps =>
    (match s with
     | [] => none
     | c :: s2 => if testCls ci p c then runInsts orig ci f k (pos + 1) s2 caps else none)
  | f + 1, Inst.is (RE.cat a b) :: k, pos, s, caps =>
    runInsts orig ci f (Inst.is a :: Inst.is b :: k) pos s caps
  | f + 1, Inst.is (RE.alt a b) :: k, pos, s, caps =>
    (match runInsts orig ci f (Inst.is a :: k) pos s caps with
     | some r => some r
     | none => runInsts orig ci f (Inst.is b :: k) pos s caps)
  | f + 1, Inst.is (RE.rep r mn mx lz) :: k, pos, s, caps =>
    (match mx with
     | some 0 => runInsts orig ci f k pos s caps
     | _ =>
       match mn with
       | m + 1 => runInsts orig ci f (Inst.is r :: Inst.is (RE.rep r m (decOpt mx) lz) :: k) pos s caps
       | 0 =>
         if lz then
           match runInsts orig ci f k pos s caps with
           | some res => some res
           | none =>
             runInsts orig ci f
               (Inst.is r :: Inst.iprog pos :: Inst.is (RE.rep r 0 (decOpt mx) lz) :: k) pos s caps
         else
           match runInsts orig ci f
               (Inst.is r :: Inst.iprog pos :: Inst.is (RE.rep r 0 (decOpt mx) lz) :: k) pos s caps with
           | some res => some res
           | none => runInsts orig ci f k pos s caps)
  | f + 1, Inst.is (RE.grp gi r) :: k, pos, s, caps =>
    runInsts orig ci f (Inst.is r :: Inst.iclose gi pos :: k) pos s caps
  | f + 1, Inst.is RE.wb :: k, pos, s, caps =>
    if wordBoundaryAt orig pos then runInsts orig ci f k pos s caps else none
  | f + 1, Inst.iprog p0 :: k, pos, s, caps =>
    if pos = p0 then none else runInsts orig ci f k pos s caps
  | f + 1, Inst.iclose gi st :: k, pos, s, caps =>
    runInsts orig ci f k pos s ((gi, st, pos) :: caps)

/-- Fuel that the patterns of this parser cannot exhaust on the inputs they
    are run at (their backtracking is at most quadratic in the window). -/
def fuelFor (n : Nat) : Nat := 400 * (n + 3) * (n + 3) + 4000

/-- One match attempt anchored at pos. -/
def execAt (orig : List Char) (ci : Bool) (r : RE) (pos : Nat) (s : List Char) :
    Option (Nat × List (Nat × Nat × Nat)) :=
  runInsts orig ci (fuelFor (s.length + 1)) [Inst.is r] pos s []

/-- A regex match: whole-match bounds plus numbered capture spans. -/
structure MatchData where
  mstart : Nat
  mstop : Nat
  mcaps : List (Nat × Nat × Nat)
deriving DecidableEq, Repr

/-- Leftmost match at or after pos: JS RegExp.prototype.exec. -/
def searchFrom (orig : List Char) (ci : Bool) (r : RE) : Nat → List Char → Option MatchData
  | pos, s =>
    match execAt orig ci r pos s with
    | some (e, caps) => some ⟨pos, e, caps⟩
    | none =>
      match s with
      | [] => none
      | _ :: s2 => searchFrom orig ci r (pos + 1) s2

/-- JavaScript String.prototype.match with a non-global regex. -/
def firstMatch (t : List Char) (ci : Bool) (r : RE) : Option MatchData :=
  searchFrom t ci r 0 t

/-- All matches in order, continuing after each match (lastIndex semantics
    of matchAll; a zero-width match advances by one). -/
def allMatchesAux (orig : List Char) (ci : Bool) (r : RE) : Nat → Nat → List MatchData
  | 0, _ => []
  | f + 1, pos =>
    match searchFrom orig ci r pos (orig.drop pos) with
    | none => []
    | some md =>
      md :: allMatchesAux orig ci r f (if md.mstart < md.mstop then md.mstop else md.mstop + 1)

/-- JavaScript String.prototype.matchAll (the parser always adds the flags
    g and i when it calls matchAll). -/
def allMatches (t : List Char) (ci : Bool) (r : RE) : List MatchData :=
  allMatchesAux t ci r (t.length + 2) 0

/-- The whole text of a match: match[0]. -/
def matchedText (orig : List Char) (md : MatchData) : List Char :=
  sliceN orig md.mstart md.mstop

/-- A numbered capture: match[i]; none models undefined. -/
def groupStr (orig : List Char) (md : MatchData) (i : Nat) : Option (List Char) :=
  match md.mcaps.find? (fun c => c.1 == i) with
  | some (_, s, e) => some (sliceN orig s e)
  | none => none

/-- JavaScript truthiness of match[i]: defined and non-empty. -/
def truthy : Option (List Char) → Bool
  | some l => !l.isEmpty
  | none => false

/-- String.prototype.replace with a non-global regex: first match replaced. -/
def replaceFirst (t : List Char) (ci : Bool) (r : RE) (repl : List Char) : List Char :=
  match firstMatch t ci r with
  | none => t
  | some md => sliceN t 0 md.mstart ++ repl ++ t.drop md.mstop

/-- String.prototype.replace with a caret-anchored regex and the empty
    replacement: drop the prefix matched at position 0, if any. -/
def replaceAnchored (t : List Char) (ci : Bool) (r : RE) : List Char :=
  match execAt t ci r 0 t with
  | some (e, _) => t.drop e
  | none => t

/-- RegExp.prototype.test. -/
def searchHas (t : List Char) (ci : Bool) (r : RE) : Bool :=
  (firstMatch t ci r).isSome

/-! ## Regex combinators used to transcribe the PATTERNS table -/

def seqR (l : List RE) : RE := l.foldr RE.cat RE.eps

def altR : List RE → RE
  | [] => RE.eps
  | [r] => r
  | r :: t => RE.alt r (altR t)

/-- A literal, one cls per character (case handled by the i flag). -/
def lit (s : String) : RE := seqR (s.data.map (fun c => RE.cls (fun d => d = c)))

def star (r : RE) : RE := RE.rep r 0 none false

def plusR (r : RE) : RE := RE.rep r 1 none false

def optR (r : RE) : RE := RE.rep r 0 (some 1) false

def repN (r : RE) (n : Nat) : RE := RE.rep r n (some n) false

def repMin (r : RE) (n : Nat) : RE := RE.rep r n none false

def repRange (r : RE) (a b : Nat) : RE := RE.rep r a (some b) false

def repLazy (r : RE) (a b : Nat) : RE := RE.rep r a (some b) true

/-- The class backslash-s. -/
def sp : RE := RE.cls isJsSpace

/-- backslash-s star. -/
def sps : RE := star sp

/-- backslash-s plus. -/
def sp1 : RE := plusR sp

/-- The class backslash-d. -/
def dig : RE := RE.cls isDigitCh

/-- The class with colon and dot. -/
def colonDot : RE := RE.cls (fun c => c = ':' || c = '.')

def chR (c : Char) : RE := RE.cls (fun d => d = c)

/-- Two literal words joined by backslash-s star, a shape the anchor
    alternations use throughout. -/
def w2 (a b : String) : RE := seqR [lit a, sps, lit b]

/-! ## The PATTERNS table of parser.ts, transcribed pattern by pattern.
    Each entry carries the regex and its i (ignore-case) flag. -/

/-- The class with uppercase letters, digits and hyphen. -/
def clsLoadId : RE := RE.cls (fun c => isUpperAZ c || isDigitCh c || c = '-')

def PATTERNS.loadNumber : List (RE × Bool) :=
  [ (seqR [altR [w2 ("Load") ("#"), w2 ("Order") ("#"), w2 ("PO") ("#"), w2 ("PO") (":"),
        w2 ("Order") (":"), w2 ("Shipment") ("ID"), w2 ("Pro") ("#"), w2 ("Ref") ("#"),
        w2 ("Reference") ("#"), w2 ("Booking") ("#"), w2 ("Confirmation") ("#"),
        seqR [lit ("Confirmation"), sps, chR '-', sps, chR '#'],
        w2 ("Control") ("#"), w2 ("Trip") ("#"), w2 ("Job") ("#"), w2 ("Shipment") ("#"),
        w2 ("Arrive") ("Order"), w2 ("Convoy") ("ID"), w2 ("Reference") ("ID"),
        seqR [lit ("Service"), sps, lit ("for"), sps, lit ("Load"), sps, chR '#'],
        seqR [lit ("Carrier"), sps, lit ("Confirmation"), sps, lit ("for"), sps, lit ("Load")],
        w2 ("FB") ("#")],
      sps, optR colonDot, sps, RE.grp 1 (repMin clsLoadId 4)], true)
  , (seqR [altR [w2 ("Ref") ("#"), lit ("Reference")],
      sps, optR colonDot, sps, RE.grp 1 (repMin clsLoadId 4)], true)
  , (seqR [RE.wb, RE.grp 1 (repMin dig 7), RE.wb], false) ]

/-- The number capture shared by the weight patterns. -/
def weightNum : RE :=
  RE.grp 1 (RE.alt (seqR [plusR dig, star (seqR [chR ',', repN dig 3])]) (plusR dig))

def weightUnits : RE :=
  altR [lit ("lbs"), lit ("LBS"), lit ("pounds"), lit ("kgs"), lit ("kg"), lit ("kilograms")]

def PATTERNS.weight : List (RE × Bool) :=
  [ (seqR [altR [lit ("Weight"), lit ("Wt"), w2 ("Gross") ("Wt"), w2 ("Estimated") ("Weight"),
        w2 ("Total") ("Weight"), w2 ("Net") ("Wt"), w2 ("Actual") ("Wt"), lit ("Wgt"),
        w2 ("Scale") ("Weight"), w2 ("Est") ("Wgt"), w2 ("Est") ("wgt"), w2 ("Exp") ("wt"),
        w2 ("Net") ("Weight"), lit ("Kilograms")],
      sps, optR colonDot, sps, weightNum, sps, optR weightUnits], true)
  , (seqR [weightNum, sps, weightUnits], true) ]

/-- The shared anchor alternation of the rate patterns. -/
def rateAnchor : RE :=
  altR [lit ("Rate"), lit ("Total"), lit ("Amount"), lit ("Pay"), w2 ("Flat") ("Rate"),
    w2 ("Total") ("Pay"), w2 ("Total") ("Amount"), w2 ("Carrier") ("Pay"), lit ("Linehaul"),
    lit ("All-in"), w2 ("Grand") ("Total"),
    seqR [lit ("Total"), sps, lit ("Carrier"), sps, lit ("Pay")],
    w2 ("Agreed") ("Amount"), w2 ("Total") ("Charges"), w2 ("Fuel") ("Surcharge"), lit ("FSC"),
    lit ("Accessorials"), lit ("Lumper"), lit ("Detention"), lit ("Payout"),
    w2 ("Pay") ("Summary"), w2 ("Total") ("Rate"), w2 ("Carrier") ("Pay")]

/-- The optional currency-code token in the rate patterns. -/
def currencyOpt : RE := optR (altR [lit ("USD"), lit ("CAD"), lit ("GBP")])

/-- Optional cents: dot and two digits. -/
def centsOpt : RE := optR (seqR [chR '.', repN dig 2])

def PATTERNS.rate : List RE :=
  [ seqR [rateAnchor, sps, currencyOpt, sps, optR colonDot, sps, optR (chR '$'), sps,
      RE.grp 1 (seqR [plusR dig, seqR [chR ',', repN dig 3], centsOpt])]
  , seqR [rateAnchor, sps, currencyOpt, sps, optR colonDot, sps, chR '$', sps,
      RE.grp 1 (seqR [plusR dig, centsOpt])]
  , seqR [rateAnchor, sps, currencyOpt, sps, optR colonDot, sps, optR (chR '$'), sps,
      RE.grp 1 (seqR [plusR dig, star (seqR [chR ',', repN dig 3]), centsOpt])]
  , seqR [chR '$', sps,
      RE.grp 1 (seqR [plusR dig, star (seqR [chR ',', repN dig 3]), centsOpt])] ]

def PATTERNS.time : RE :=
  RE.cat
    (optR (seqR [altR
      [ seqR [lit ("Appt"), sps]
      , seqR [lit ("Appointment"), sps, lit ("Time"), sps, optR (chR ':')]
      , seqR [lit ("Appointment"), sps]
      , seqR [lit ("Window"), sps]
      , seqR [lit ("ETA"), sps]
      , seqR [lit ("Scheduled"), sps]
      , seqR [lit ("Arrival"), sps]
      , seqR [lit ("Time"), sps, optR (chR ':')]
      , lit ("Check-in"), lit ("FCFS"), lit ("ASAP"), w2 ("Delivery") ("Window")
      , seqR [lit ("PU"), sps, lit ("Date"), sps, chR '/', sps, lit ("Time")]
      , seqR [lit ("DEL"), sps, lit ("Date"), sps, chR '/', sps, lit ("Time")]
      , seqR [lit ("Pick"), sps, lit ("up"), sps, lit ("time")]
      , w2 ("Delivery") ("time"), lit ("Schedule"), lit ("Earliest"), lit ("Latest")
      , seqR [lit ("Appointment"), sps, lit ("Scheduled"), sps, lit ("For")]
      , w2 ("Pick-up") ("Location"), w2 ("Delivery") ("Location")],
      sps, optR colonDot, sps]))
    (RE.grp 1 (altR
      [ seqR [repRange dig 1 2, chR ':', repN dig 2, sps, optR (RE.alt (lit ("AM")) (lit ("PM")))]
      , seqR [repN dig 4, sps, lit ("hr"), optR (chR 's')]
      , lit ("TBD"), lit ("ASAP"), lit ("FCFS")]))

/-- The class with slash, dot and hyphen separating date parts. -/
def dateSep : RE := RE.cls (fun c => c = '/' || c = '.' || c = '-')

def PATTERNS.date : RE :=
  seqR [RE.wb,
    RE.grp 1 (seqR [repRange dig 1 2, dateSep, repRange dig 1 2, dateSep, repRange dig 2 4]),
    RE.wb]

def PATTERNS.timezone : RE :=
  seqR [RE.wb,
    RE.grp 1 (altR [lit ("EST"), lit ("CST"), lit ("MST"), lit ("PST"), lit ("EDT"),
      lit ("CDT"), lit ("MDT"), lit ("PDT"), lit ("AST"), lit ("HST"), lit ("AKST"),
      lit ("AKDT"), lit ("UTC"), lit ("GMT")]),
    RE.wb]

/-- The class of the street-address body in the first address pattern. -/
def clsAddrBody : RE :=
  RE.cls (fun c => isUpperAZ c || isDigitCh c || isJsSpace c ||
    c = '.' || c = ',' || c = '#' || c = '-')

/-- The class of the city part in the second address pattern. -/
def clsCity : RE :=
  RE.cls (fun c => isUpperAZ c || isLowerAZ c || c = ' ' || c = '\t' || c = '.' || c = '/')

def clsUpper : RE := RE.cls isUpperAZ

def PATTERNS.address : List RE :=
  [ RE.grp 1 (seqR [plusR dig, sp1, repLazy clsAddrBody 2 60, repN clsUpper 2, sp1,
      repN dig 5, optR (seqR [chR '-', repN dig 4])])
  , seqR [RE.wb, RE.grp 1 (seqR [clsUpper, repRange clsCity 1 30]),
      RE.alt (chR ',') sp1, sps, RE.grp 2 (repN clsUpper 2), RE.wb,
      optR (seqR [sps, RE.grp 3 (seqR [repN dig 5, optR (seqR [chR '-', repN dig 4])])])] ]

/-- The class with colon and hyphen used by the stop-marker patterns. -/
def clsColonDash : RE := RE.cls (fun c => c = ':' || c = '-')

/-! ## Data model -/

inductive StopType where
  | pickup : StopType
  | delivery : StopType
deriving DecidableEq, Repr

/-- One stop record, as the Stop interface of parser.ts. -/
structure Stop where
  type : StopType
  address : List Char
  date : List Char
  time : List Char
  label : List Char
deriving DecidableEq, Repr

/-- The full extraction result, as the ParsedRateCon interface. -/
structure ParsedRateCon where
  loadNumber : List Char
  weight : List Char
  rate : List Char
  stops : List Stop
  pickupTime : List Char
  pickupDate : List Char
  deliveryTime : List Char
  originAddress : List Char
  destinationAddress : List Char
  rawTextPreview : List Char
deriving DecidableEq, Repr

/-- A detected stop marker: text offset, resolved type, display label and
    priority tier. -/
structure Marker where
  index : Nat
  type : StopType
  label : List Char
  priority : Nat
deriving DecidableEq, Repr

/-- Marker kind before resolution: the auto kind is decided per match. -/
inductive MKind where
  | pickup : MKind
  | delivery : MKind
  | auto : MKind
deriving DecidableEq, Repr

structure MarkerSpec where
  re : RE
  kind : MKind
  priority : Nat

/-- An address candidate inside a section window. -/
structure AddrMatch where
  text : List Char
  index : Nat
  patternIdx : Nat
deriving DecidableEq, Repr

/-- A scored rate candidate. -/
structure RateCand where
  value : List Char
  score : Int
deriving DecidableEq, Repr

/-! ## Stable sorting.  Array.prototype.sort with a consistent comparator
    is exactly the stable sort, which insertion sort implements. -/

def ordIns {α : Type} (le : α → α → Bool) (a : α) : List α → List α
  | [] => [a]
  | b :: l => if le a b then a :: b :: l else b :: ordIns le a l

def insSort {α : Type} (le : α → α → Bool) : List α → List α
  | [] => []
  | a :: l => ordIns le a (insSort le l)

/-! ## The parser, function by function -/

/-- First normalization step: CRLF and CR to LF. -/
def collapseCRLF : List Char → List Char
  | [] => []
  | '\r' :: '\n' :: t => '\n' :: collapseCRLF t
  | c :: t => c :: collapseCRLF t

/-- Second normalization step: a run of spaces and tabs becomes one space
    (the run emits its single space at its last character). -/
def collapseWs : List Char → List Char
  | [] => []
  | c :: t =>
    if c = ' ' || c = '\t' then
      match t with
      | d :: _ => if d = ' ' || d = '\t' then collapseWs t else ' ' :: collapseWs t
      | [] => [' ']
    else c :: collapseWs t

/-- The text normalization at the top of parseRateConfirmation. -/
def normalizeText (input : List Char) : List Char :=
  collapseWs ((collapseCRLF input).map (fun c => if c = '\r' then '\n' else c))

/-- The leading label-noise regex of cleanAddress (anchored, repeated). -/
def addrNoiseRe : RE :=
  plusR (seqR [sps,
    altR [lit ("LOCATION"), lit ("DATE"), lit ("TIME"), lit ("PICK-UP"), lit ("DELIVERY"),
      lit ("DESTINATION"), lit ("ORIGIN"), lit ("SHIPPER"), lit ("CONSIGNEE"), lit ("PICKUP"),
      lit ("ADDRESS"), lit ("FROM"), lit ("TO"), lit ("RECEIVER"),
      seqR [lit ("STOP"), sps, optR (seqR [optR (chR '#'), plusR dig])],
      lit ("LOADING"), lit ("UNLOADING"), lit ("PU"), lit ("P/U"), lit ("DEL"),
      w2 ("FACILITY") ("NAME"), w2 ("SHIPPING") ("ADDRESS"), w2 ("RECEIVING") ("ADDRESS"),
      w2 ("DROP") ("OFF"), w2 ("PICK-UP") ("LOCATION"), w2 ("DELIVERY") ("LOCATION"),
      w2 ("DATE") ("TIME"), lit ("NOTES"), w2 ("SPECIAL") ("INSTRUCTIONS"),
      lit ("UP"), lit ("PICK"), lit ("INFO"), lit ("CONTACT"), lit ("NAME"), lit ("PHONE"),
      lit ("EMAIL"), lit ("FAX"), lit ("MC"), lit ("DOT"), lit ("DISPATCHER"), lit ("DRIVER"),
      lit ("TRUCK"), lit ("TRAILER"), lit ("LOAD"), lit ("RATE"), lit ("TYPE"), lit ("UNIT"),
      lit ("QUANTITY"), lit ("TOTAL"), lit ("MODE"), lit ("SIZE"), lit ("LINEAR"), lit ("FEET"),
      lit ("TEMPERATURE"), lit ("PALLET"), lit ("CASE"), lit ("HAZMAT"), lit ("WEIGHT"),
      lit ("ESTIMATED"), lit ("UNLOADING"), lit ("RECEIPT"), lit ("EXCHANGE"), lit ("NOTE"),
      lit ("CARRIER")],
    sps, optR (RE.cls (fun c => c = ':' || c = '/' || c = '-')), sps])

/-- The hardcoded blacklist of corporate addresses and false positives. -/
def blacklist : List (List Char) :=
  [ strL ("1701 Edison Drive"), strL ("PO Box 9049"), strL ("Louisville, KY 40209"),
    strL ("Milford, OH 45150"), strL ("FLEET ONE FACTORING"), strL ("WEX"),
    strL ("PO BOX 94565"), strL ("CLEVELAND, OH 44101"), strL ("pickup / delivery"),
    strL ("pickup/delivery"), strL ("pickup / delivery OR BOTH"), strL ("delivery OR BOTH"),
    strL ("pickup / delivery OR") ]

/-- cleanAddress of parser.ts: strip stacked leading labels, reject
    blacklisted boilerplate and too-short candidates. -/
def cleanAddress (addr : List Char) : List Char :=
  if addr.isEmpty then [] else
  let cleaned := jsTrim (replaceAnchored addr true addrNoiseRe)
  if blacklist.any (fun item => hasSub (upStr cleaned) (upStr item)) then []
  else if cleaned.length < 5 then []
  else cleaned

/-- The extract helper: first pattern whose capture group 1 is non-empty
    wins, and its capture is trimmed. -/
def extract : List (RE × Bool) → List Char → List Char
  | [], _ => []
  | (r, ci) :: rest, t =>
    match firstMatch t ci r with
    | some md =>
      (match groupStr t md 1 with
       | some g => if g.isEmpty then extract rest t else jsTrim g
       | none => extract rest t)
    | none => extract rest t

/-- The replace of all commas by the empty string. -/
def removeCommas (l : List Char) : List Char := l.filter (fun c => !(c == ','))

/-- normalizeWeight of parser.ts. -/
def normalizeWeight (w : List Char) : List Char :=
  if w.isEmpty then [] else
  let clean := jsTrim (removeCommas w)
  if clean.isEmpty then [] else clean ++ strL (" LBS")

/-- normalizeDate of parser.ts: slash, dot, hyphen all become dots. -/
def normalizeDate (d : List Char) : List Char :=
  d.map (fun c => if c = '/' || c = '.' || c = '-' then '.' else c)

/-- The prefix and suffix noise removed inside normalizeTime, in the order
    the source chains its replace calls. -/
def timeNoise : List RE :=
  [ seqR [lit ("hr"), optR (chR 's')]
  , seqR [lit ("Appointment"), sps, lit ("Time"), sps, optR (chR ':')]
  , lit ("Appointment"), lit ("Appt"), lit ("Window"), lit ("ETA")
  , lit ("Scheduled"), lit ("Arrival")
  , seqR [lit ("Time"), sps, optR (chR ':')] ]

/-- normalizeTime of parser.ts: sentinels pass through uppercased, 4-digit
    military times gain a colon, colon times convert to 24-hour form. -/
def normalizeTime (t : List Char) : List Char :=
  if t.isEmpty then [] else
  let up := upStr t
  if up = strL ("TBD") ∨ up = strL ("ASAP") ∨ up = strL ("FCFS") then up else
  let clean := jsTrim (timeNoise.foldl (fun s r => replaceFirst s true r []) t)
  let isPM := searchHas clean true (lit ("PM"))
  let isAM := searchHas clean true (lit ("AM"))
  let clean := jsTrim (replaceFirst clean true (RE.alt (lit ("AM")) (lit ("PM"))) [])
  if !(clean.contains ':') && clean.length == 4 && !(jsNumberIsNaN clean) then
    sliceN clean 0 2 ++ ':' :: sliceN clean 2 4
  else if clean.contains ':' then
    let parts := splitCh ':' clean
    let hours := parts.headD []
    let minutes := (parts.drop 1).headD []
    let h0 := jsParseInt hours
    let m := padStart 2 '0' (sliceN minutes 0 2)
    let h1 := match h0 with
      | some x => if isPM ∧ x < 12 then some (x + 12) else some x
      | none => none
    let h2 := match h1 with
      | some x => if isAM ∧ x = 12 then some (0 : Int) else some x
      | none => none
    padStart 2 '0' (jsIntToStr h2) ++ ':' :: m
  else clean

/-- The score of one rate candidate, from its whole matched text and its
    parsed numeric value (the running sum of the source written as one
    sum; only USD is tested for the currency-code bonus). -/
def rateScore (m0 : List Char) (num : JsNum) : Int :=
  (if hasSub m0 (strL ("$")) then (10 : Int) else 0)
  + (if hasSub (upStr m0) (strL ("USD")) then 10 else 0)
  + (if hasSub (lowStr m0) (strL ("total")) then 5 else 0)
  + (if hasSub (lowStr m0) (strL ("agreed")) then 5 else 0)
  + (if hasSub (lowStr m0) (strL ("miles")) then -20 else 0)
  + (if hasSub (lowStr m0) (strL ("weight")) then -20 else 0)
  + (if hasSub (lowStr m0) (strL ("pieces")) then -20 else 0)
  + (if num.ltNat 50 then -15 else 0)

/-- Modelled from the spec: the scoring function whose currency-code
    clause grants +10 when the matched text contains any of the tokens
    USD, CAD or GBP, as section 4.2 of the spec states; all other clauses
    as in the code.  Used only to compare against rateScore. -/
def rateScoreSpecCurrency (m0 : List Char) (num : JsNum) : Int :=
  (if hasSub m0 (strL ("$")) then (10 : Int) else 0)
  + (if hasSub (upStr m0) (strL ("USD")) || hasSub (upStr m0) (strL ("CAD"))
        || hasSub (upStr m0) (strL ("GBP")) then 10 else 0)
  + (if hasSub (lowStr m0) (strL ("total")) then 5 else 0)
  + (if hasSub (lowStr m0) (strL ("agreed")) then 5 else 0)
  + (if hasSub (lowStr m0) (strL ("miles")) then -20 else 0)
  + (if hasSub (lowStr m0) (strL ("weight")) then -20 else 0)
  + (if hasSub (lowStr m0) (strL ("pieces")) then -20 else 0)
  + (if num.ltNat 50 then -15 else 0)

/-- All scored rate candidates, every match of every rate pattern in
    pattern order (NaN values are skipped, as the source continue does). -/
def rateCandidates (nt : List Char) : List RateCand :=
  PATTERNS.rate.foldl (fun acc r =>
    acc ++ (allMatches nt true r).filterMap (fun md =>
      match groupStr nt md 1 with
      | none => none
      | some g =>
        if g.isEmpty then none else
          let val := removeCommas g
          match jsParseFloat val with
          | none => none
          | some q => some ⟨val, rateScore (matchedText nt md) q⟩)) []

def scGeB (a b : RateCand) : Bool := decide (b.score ≤ a.score)

/-- Best rate: stable sort by score descending, first element wins. -/
def bestRate (nt : List Char) : List Char :=
  match insSort scGeB (rateCandidates nt) with
  | c :: _ => c.value
  | [] => []

/-! ## Stop-marker detection -/

def stopMarkers : List MarkerSpec :=
  [ ⟨seqR [altR [lit ("Shipper"), lit ("Origin"), lit ("Pickup")], sps, chR '-', sps,
      altR [lit ("Pickup"), lit ("Stop")], sps, RE.grp 1 (plusR dig), sps, lit ("of"), sps,
      RE.grp 2 (plusR dig)], MKind.pickup, 2⟩
  , ⟨seqR [altR [lit ("Consignee"), lit ("Destination"), lit ("Delivery")], sps, chR '-', sps,
      altR [lit ("Delivery"), lit ("Stop")], sps, RE.grp 1 (plusR dig), sps, lit ("of"), sps,
      RE.grp 2 (plusR dig)], MKind.delivery, 2⟩
  , ⟨seqR [lit ("Stop"), sps, optR (chR '#'), sps, RE.grp 1 (plusR dig), sps, optR clsColonDash,
      sps, RE.grp 2 (RE.alt (lit ("Pick")) (lit ("Del")))], MKind.auto, 2⟩
  , ⟨seqR [lit ("Stop"), sps, optR (chR '#'), sps, RE.grp 1 (plusR dig)], MKind.auto, 2⟩
  , ⟨seqR [altR [lit ("Shipper"), lit ("Origin"), lit ("Pickup")], sps, clsColonDash],
      MKind.pickup, 1⟩
  , ⟨seqR [altR [lit ("Consignee"), lit ("Destination"), lit ("Delivery")], sps, clsColonDash],
      MKind.delivery, 1⟩ ]

def capName : StopType → List Char
  | StopType.pickup => strL ("Pickup")
  | StopType.delivery => strL ("Delivery")

/-- Resolve the auto marker kind from the matched text, as the source does
    on the lowercased match. -/
def resolveType (k : MKind) (m0 : List Char) : StopType :=
  match k with
  | MKind.pickup => StopType.pickup
  | MKind.delivery => StopType.delivery
  | MKind.auto =>
    let sub := lowStr m0
    if hasSub sub (strL ("pick")) || hasSub sub (strL ("shipper"))
    then StopType.pickup else StopType.delivery

/-- The display label of a marker, from its type and its two captures
    (truthiness of match[1] and match[2] as in the source). -/
def markerLabel (ty : StopType) (g1 g2 : Option (List Char)) : List Char :=
  if truthy g1 && truthy g2 then
    capName ty ++ strL (" ") ++ g1.getD [] ++ strL (" of ") ++ g2.getD []
  else if truthy g1 then capName ty ++ strL (" ") ++ g1.getD []
  else capName ty

/-- Push one marker match unless an already-found marker sits within 10
    characters of it. -/
def addMarker (nt : List Char) (ms : MarkerSpec) (acc : List Marker) (md : MatchData) :
    List Marker :=
  let ty := resolveType ms.kind (matchedText nt md)
  let lbl := markerLabel ty (groupStr nt md 1) (groupStr nt md 2)
  if acc.any (fun m => decide (natAbsDiff m.index md.mstart < 10)) then acc
  else acc ++ [⟨md.mstart, ty, lbl, ms.priority⟩]

/-- All found markers, every matchAll match of every marker pattern in
    declaration order, with the proximity dedup applied on the fly. -/
def rawFoundMarkers (nt : List Char) : List Marker :=
  stopMarkers.foldl (fun acc ms => (allMatches nt true ms.re).foldl (addMarker nt ms) acc) []

/-- Math.max over the priorities (0 when the list is empty, as the
    source special-cases). -/
def maxPrio (ms : List Marker) : Nat :=
  ms.foldl (fun a m => Nat.max a m.priority) 0

/-- If any high-priority marker was found, keep only the markers at the
    maximal priority. -/
def filteredMarkers (nt : List Char) : List Marker :=
  let ms := rawFoundMarkers nt
  let mp := maxPrio ms
  if 1 < mp then ms.filter (fun m => m.priority == mp) else ms

def markerLeB (a b : Marker) : Bool := decide (a.index ≤ b.index)

/-- The legacy fallback: first occurrence of pickup, then of delivery
    after it, in the lowercased text. -/
def legacyMarkers (nt : List Char) : List Marker :=
  let lt := lowStr nt
  let pIdx := jsIndexOf lt (strL ("pickup")) 0
  let dIdx := jsIndexOf lt (strL ("delivery")) (match pIdx with | none => 0 | some i => i + 1)
  (match pIdx with
   | some i => [⟨i, StopType.pickup, strL ("Pickup"), 1⟩]
   | none => []) ++
  (match dIdx with
   | some i => [⟨i, StopType.delivery, strL ("Delivery"), 1⟩]
   | none => [])

/-- Markers actually used for sectioning: filtered, sorted by offset,
    with the legacy fallback when none were found. -/
def markersFinalN (nt : List Char) : List Marker :=
  let sm := insSort markerLeB (filteredMarkers nt)
  if sm.isEmpty then legacyMarkers nt else sm

/-! ## Per-section extraction and assembly -/

def amLeB (a b : AddrMatch) : Bool := decide (a.index ≤ b.index)

/-- Candidates of one address pattern inside a section: cleaned matches
    that survive cleanAddress. -/
def addrCandList (sec : List Char) (j : Nat) (r : RE) : List AddrMatch :=
  (allMatches sec true r).filterMap (fun md =>
    let cleaned := cleanAddress (matchedText sec md)
    if cleaned.isEmpty then none else some ⟨cleaned, md.mstart, j⟩)

/-- All candidates of both address patterns. -/
def addrCandidates (sec : List Char) : List AddrMatch :=
  PATTERNS.address.enum.foldl (fun acc jr => acc ++ addrCandList sec jr.1 jr.2) []

/-- findEarliestAddress of parser.ts: earliest full-address match wins,
    else earliest match of any pattern. -/
def findEarliestAddress (sec : List Char) : List Char :=
  let ms := addrCandidates sec
  if ms.isEmpty then [] else
    match insSort amLeB (ms.filter (fun m => m.patternIdx == 0)) with
    | f :: _ => f.text
    | [] =>
      match insSort amLeB ms with
      | m :: _ => m.text
      | [] => []

/-- Build the stop of one marker from its section window. -/
def buildStop (nt : List Char) (m : Marker) (endPos : Nat) : Stop :=
  let sec := sliceN nt m.index endPos
  let t0 := match firstMatch sec true PATTERNS.time with
    | none => []
    | some md => normalizeTime ((groupStr sec md 1).getD [])
  let time := match firstMatch sec true PATTERNS.timezone with
    | some md => if t0.isEmpty then t0 else t0 ++ strL (" ") ++ upStr ((groupStr sec md 1).getD [])
    | none => t0
  let date := match firstMatch sec false PATTERNS.date with
    | none => []
    | some md => normalizeDate ((groupStr sec md 1).getD [])
  { type := m.type, address := findEarliestAddress sec, date := date, time := time,
    label := m.label }

/-- One stop per marker; each section runs to the next marker, the last
    one to the end of the text. -/
def buildStopsAux (nt : List Char) : List Marker → List Stop
  | [] => []
  | m :: rest =>
    buildStop nt m (match rest with | m2 :: _ => m2.index | [] => nt.length) ::
      buildStopsAux nt rest

/-- The accumulator pass of the stop deduplication: keep a stop when its
    address is non-empty and no kept stop already has that address. -/
def dedupeGo : List Stop → List Stop → List Stop
  | acc, [] => acc
  | acc, s :: rest =>
    if !s.address.isEmpty && !(acc.any (fun x => x.address == s.address))
    then dedupeGo (acc ++ [s]) rest
    else dedupeGo acc rest

def dedupeStops (l : List Stop) : List Stop := dedupeGo [] l

/-- The stop list before deduplication, from the raw input. -/
def stopsBeforeDedup (input : List Char) : List Stop :=
  let nt := normalizeText input
  buildStopsAux nt (markersFinalN nt)

/-- All found markers, from the raw input. -/
def markersFound (input : List Char) : List Marker :=
  rawFoundMarkers (normalizeText input)

/-- The markers used for sectioning, from the raw input. -/
def markersKept (input : List Char) : List Marker :=
  markersFinalN (normalizeText input)

/-- parseRateConfirmation of parser.ts. -/
def parseRateConfirmation (input : List Char) : ParsedRateCon :=
  let nt := normalizeText input
  let stops := dedupeStops (stopsBeforeDedup input)
  let pickups := stops.filter (fun s => decide (s.type = StopType.pickup))
  let deliveries := stops.filter (fun s => decide (s.type = StopType.delivery))
  { loadNumber := extract PATTERNS.loadNumber nt
  , weight := normalizeWeight (extract PATTERNS.weight nt)
  , rate := bestRate nt
  , stops := stops
  , pickupTime := match pickups with | p :: _ => p.time | [] => []
  , pickupDate := match pickups with | p :: _ => p.date | [] => []
  , deliveryTime := match deliveries.getLast? with | some d => d.time | none => []
  , originAddress := match pickups with | p :: _ => p.address | [] => []
  , destinationAddress := match deliveries.getLast? with | some d => d.address | none => []
  , rawTextPreview := sliceN nt 0 200 ++ strL ("...") }

/-- The delivery-type stops of the final result. -/
def deliveriesOf (input : List Char) : List Stop :=
  (parseRateConfirmation input).stops.filter (fun s => decide (s.type = StopType.delivery))

/-! ## Generic lemmas: folds, the stable sort, the deduplication pass -/

theorem foldl_inv {α β : Type} (f : List β → α → List β) (P : β → Prop) :
    ∀ (l : List α) (acc : List β), (∀ x ∈ acc, P x) →
      (∀ acc2 a, a ∈ l → (∀ x ∈ acc2, P x) → ∀ x ∈ f acc2 a, P x) →
      ∀ x ∈ l.foldl f acc, P x := by
  intro l
  induction l with
  | nil => intro acc hacc _ x hx; exact hacc x hx
  | cons a t ih =>
    intro acc hacc hstep x hx
    exact ih (f acc a) (hstep acc a (List.mem_cons_self a t) hacc)
      (fun acc2 b hb => hstep acc2 b (List.mem_cons_of_mem a hb)) x hx

theorem ordIns_perm {α : Type} (le : α → α → Bool) (a : α) :
    ∀ l : List α, (ordIns le a l).Perm (a :: l) := by
  intro l
  induction l with
  | nil => simp [ordIns]
  | cons b t ih =>
    by_cases h : le a b = true
    · simp [ordIns, h]
    · simp only [ordIns, h]
      simp only [Bool.false_eq_true, if_false]
      exact (ih.cons b).trans (List.Perm.swap a b t)

theorem insSort_perm {α : Type} (le : α → α → Bool) :
    ∀ l : List α, (insSort le l).Perm l := by
  intro l
  induction l with
  | nil => simp [insSort]
  | cons a t ih => exact (ordIns_perm le a (insSort le t)).trans (ih.cons a)

theorem mem_insSort {α : Type} (le : α → α → Bool) {x : α} {l : List α} :
    x ∈ insSort le l ↔ x ∈ l := (insSort_perm le l).mem_iff

theorem mem_ordIns {α : Type} (le : α → α → Bool) {x a : α} {l : List α} :
    x ∈ ordIns le a l ↔ x = a ∨ x ∈ l := by
  rw [(ordIns_perm le a l).mem_iff, List.mem_cons]

theorem ordIns_pairwise {α : Type} {le : α → α → Bool}
    (htot : ∀ a b, le a b = false → le b a = true)
    (htr : ∀ a b c, le a b = true → le b c = true → le a c = true) (a : α) :
    ∀ l : List α, l.Pairwise (fun x y => le x y = true) →
      (ordIns le a l).Pairwise (fun x y => le x y = true) := by
  intro l
  induction l with
  | nil => intro _; simp [ordIns]
  | cons b t ih =>
    intro hl
    rw [List.pairwise_cons] at hl
    by_cases h : le a b = true
    · simp only [ordIns, h, if_true]
      refine List.Pairwise.cons ?_ (List.Pairwise.cons hl.1 hl.2)
      intro x hx
      rcases List.mem_cons.mp hx with rfl | hx
      · exact h
      · exact htr a b x h (hl.1 x hx)
    · simp only [ordIns, h]
      simp only [Bool.false_eq_true, if_false]
      refine List.Pairwise.cons ?_ (ih hl.2)
      intro x hx
      rcases (mem_ordIns le).mp hx with rfl | hx
      · exact htot x b (Bool.eq_false_iff.mpr h)
      · exact hl.1 x hx

theorem insSort_pairwise {α : Type} {le : α → α → Bool}
    (htot : ∀ a b, le a b = false → le b a = true)
    (htr : ∀ a b c, le a b = true → le b c = true → le a c = true) :
    ∀ l : List α, (insSort le l).Pairwise (fun x y => le x y = true) := by
  intro l
  induction l with
  | nil => simp [insSort]
  | cons a t ih => exact ordIns_pairwise htot htr a (insSort le t) ih

/-- The specification of the deduplication pass: the result extends the
    accumulator by a sublist of the input whose addresses are non-empty,
    pairwise distinct, absent from the accumulator, and such that each kept
    stop is the first stop of the input with its address. -/
theorem dedupeGo_spec :
    ∀ (l acc : List Stop), ∃ s2, dedupeGo acc l = acc ++ s2 ∧ s2.Sublist l ∧
      s2.Pairwise (fun a b => a.address ≠ b.address) ∧
      ∀ y ∈ s2, y.address ≠ [] ∧ (∀ a ∈ acc, a.address ≠ y.address) ∧
        l.find? (fun z => z.address == y.address) = some y := by
  intro l
  induction l with
  | nil => intro acc; exact ⟨[], by simp [dedupeGo], List.Sublist.refl _, List.Pairwise.nil, by simp⟩
  | cons s rest ih =>
    intro acc
    cases hemp : s.address.isEmpty with
    | false =>
      cases hany : acc.any (fun x => x.address == s.address) with
      | false =>
        have hne2 : s.address ≠ [] := by
          intro h; rw [h] at hemp; simp at hemp
        have hacc : ∀ a ∈ acc, a.address ≠ s.address := by
          intro a ha heq
          have h2 : (fun (x : Stop) => x.address == s.address) a = true := by simp [heq]
          have h3 : acc.any (fun x => x.address == s.address) = true :=
            List.any_eq_true.mpr ⟨a, ha, h2⟩
          rw [hany] at h3; exact Bool.false_ne_true h3
        obtain ⟨s3, heq, hsub, hpw, hmem⟩ := ih (acc ++ [s])
        refine ⟨s :: s3, ?_, hsub.cons₂ s, ?_, ?_⟩
        · have h2 : dedupeGo acc (s :: rest) = dedupeGo (acc ++ [s]) rest := by
            simp [dedupeGo, hemp, hany]
          rw [h2, heq, List.append_assoc]; rfl
        · refine List.Pairwise.cons ?_ hpw
          intro y hy
          exact (hmem y hy).2.1 s (by simp)
        · intro y hy
          rcases List.mem_cons.mp hy with rfl | hy
          · exact ⟨hne2, hacc, List.find?_cons_of_pos _ (by simp)⟩
          · obtain ⟨hy1, hy2, hy3⟩ := hmem y hy
            have hsy : s.address ≠ y.address := hy2 s (by simp)
            refine ⟨hy1, fun a ha => hy2 a (by simp [ha]), ?_⟩
            rw [List.find?_cons_of_neg _ (by simp [hsy])]
            exact hy3
      | true =>
        obtain ⟨s3, heq, hsub, hpw, hmem⟩ := ih acc
        refine ⟨s3, ?_, hsub.cons s, hpw, ?_⟩
        · have h2 : dedupeGo acc (s :: rest) = dedupeGo acc rest := by
            simp [dedupeGo, hemp, hany]
          rw [h2, heq]
        · intro y hy
          obtain ⟨hy1, hy2, hy3⟩ := hmem y hy
          obtain ⟨a, ha, hb⟩ := List.any_eq_true.mp hany
          have hsy : s.address ≠ y.address := by
            have hab : a.address = s.address := by simpa using hb
            rw [← hab]; exact hy2 a ha
          refine ⟨hy1, hy2, ?_⟩
          rw [List.find?_cons_of_neg _ (by simp [hsy])]
          exact hy3
    | true =>
      obtain ⟨s3, heq, hsub, hpw, hmem⟩ := ih acc
      refine ⟨s3, ?_, hsub.cons s, hpw, ?_⟩
      · have h2 : dedupeGo acc (s :: rest) = dedupeGo acc rest := by
          simp [dedupeGo, hemp]
        rw [h2, heq]
      · intro y hy
        obtain ⟨hy1, hy2, hy3⟩ := hmem y hy
        have hse : s.address = [] := by
          cases hsa : s.address with
          | nil => rfl
          | cons c t => rw [hsa] at hemp; simp at hemp
        have hsy : s.address ≠ y.address := by
          rw [hse]; exact fun he => hy1 he.symm
        refine ⟨hy1, hy2, ?_⟩
        rw [List.find?_cons_of_neg _ (by simp [hsy])]
        exact hy3

/-! ## The address invariant: every kept address survived cleanAddress -/

/-- A non-empty result of cleanAddress is at least 5 characters long and
    contains no blacklisted substring. -/
theorem cleanAddress_good (a : List Char) (h : cleanAddress a ≠ []) :
    5 ≤ (cleanAddress a).length ∧
    ∀ b ∈ blacklist, hasSub (upStr (cleanAddress a)) (upStr b) = false := by
  revert h
  simp only [cleanAddress]
  split
  · intro h; exact absurd rfl h
  · split
    next h2 =>
      intro h; exact absurd rfl h
    next h2 =>
      split
      next h3 => intro h; exact absurd rfl h
      next h3 =>
        intro _
        refine ⟨by omega, ?_⟩
        intro b hb
        cases hres : hasSub (upStr (jsTrim (replaceAnchored a true addrNoiseRe))) (upStr b) with
        | false => rfl
        | true =>
          exact absurd (List.any_eq_true.mpr ⟨b, hb, hres⟩) h2

/-- Every address candidate text is a non-empty cleanAddress output. -/
theorem addrCandidates_text {sec : List Char} {m : AddrMatch} (hm : m ∈ addrCandidates sec) :
    ∃ raw, m.text = cleanAddress raw ∧ cleanAddress raw ≠ [] := by
  unfold addrCandidates at hm
  refine foldl_inv _ (fun x : AddrMatch => ∃ raw, x.text = cleanAddress raw ∧ cleanAddress raw ≠ [])
    _ [] (by simp) ?_ m hm
  intro acc2 jr _ hacc x hx
  rcases List.mem_append.mp hx with hx | hx
  · exact hacc x hx
  · unfold addrCandList at hx
    obtain ⟨md, _, hsome⟩ := List.mem_filterMap.mp hx
    dsimp only at hsome
    split at hsome
    · exact absurd hsome (by simp)
    next hcl =>
      cases hsome
      refine ⟨matchedText sec md, rfl, ?_⟩
      intro he
      rw [he] at hcl
      simp at hcl

/-- The result of findEarliestAddress is empty or a surviving cleanAddress
    output. -/
theorem findEarliestAddress_good (sec : List Char) :
    findEarliestAddress sec = [] ∨
    ∃ raw, findEarliestAddress sec = cleanAddress raw ∧ cleanAddress raw ≠ [] := by
  unfold findEarliestAddress
  dsimp only
  split
  · exact Or.inl rfl
  · split
    next f rest heq =>
      right
      have hf : f ∈ insSort amLeB ((addrCandidates sec).filter (fun m => m.patternIdx == 0)) := by
        rw [heq]; exact List.mem_cons_self f rest
      have hf2 := (List.mem_filter.mp ((mem_insSort amLeB).mp hf)).1
      obtain ⟨raw, hr, hne⟩ := addrCandidates_text hf2
      exact ⟨raw, hr, hne⟩
    next heq =>
      split
      next g rest2 heq2 =>
        right
        have hg : g ∈ insSort amLeB (addrCandidates sec) := by
          rw [heq2]; exact List.mem_cons_self g rest2
        obtain ⟨raw, hr, hne⟩ := addrCandidates_text ((mem_insSort amLeB).mp hg)
        exact ⟨raw, hr, hne⟩
      next heq2 => exact Or.inl rfl

theorem buildStop_address (nt : List Char) (m : Marker) (e : Nat) :
    (buildStop nt m e).address = findEarliestAddress (sliceN nt m.index e) := rfl

theorem buildStop_type (nt : List Char) (m : Marker) (e : Nat) :
    (buildStop nt m e).type = m.type := rfl

theorem buildStop_label (nt : List Char) (m : Marker) (e : Nat) :
    (buildStop nt m e).label = m.label := rfl

/-- Every stop before deduplication is the build of some marker window. -/
theorem mem_buildStopsAux {nt : List Char} :
    ∀ {ms : List Marker} {s : Stop}, s ∈ buildStopsAux nt ms → ∃ m e, s = buildStop nt m e := by
  intro ms
  induction ms with
  | nil => intro s hs; simp [buildStopsAux] at hs
  | cons m rest ih =>
    intro s hs
    simp only [buildStopsAux] at hs
    rcases List.mem_cons.mp hs with rfl | hs
    · exact ⟨m, _, rfl⟩
    · exact ih hs

/-- The shared address invariant of the final stop list: every stop kept
    by parseRateConfirmation has a non-empty address of length at least 5
    with no blacklisted substring. -/
theorem stops_addr_good (input : List Char) :
    ∀ s ∈ (parseRateConfirmation input).stops,
      s.address ≠ [] ∧ 5 ≤ s.address.length ∧
      ∀ b ∈ blacklist, hasSub (upStr s.address) (upStr b) = false := by
  intro s hs
  have hstops : (parseRateConfirmation input).stops = dedupeStops (stopsBeforeDedup input) := rfl
  rw [hstops] at hs
  obtain ⟨s2, heq, hsub, _, hmem⟩ := dedupeGo_spec (stopsBeforeDedup input) []
  have heq2 : dedupeStops (stopsBeforeDedup input) = s2 := by
    rw [dedupeStops, heq]; rfl
  rw [heq2] at hs
  obtain ⟨hne, _, _⟩ := hmem s hs
  have hmem2 : s ∈ stopsBeforeDedup input := hsub.subset hs
  have hmem3 : s ∈ buildStopsAux (normalizeText input) (markersFinalN (normalizeText input)) :=
    hmem2
  obtain ⟨m, e, rfl⟩ := mem_buildStopsAux hmem3
  rw [buildStop_address] at hne ⊢
  rcases findEarliestAddress_good (sliceN (normalizeText input) m.index e) with h | ⟨raw, hr, hne2⟩
  · exact absurd h hne
  · rw [hr]
    obtain ⟨hlen, hbl⟩ := cleanAddress_good raw hne2
    exact ⟨hne2, hlen, hbl⟩

/-! ## Marker priorities and ordering -/

/-- Every declared marker pattern sits in tier 1 or tier 2. -/
theorem stopMarkers_prio : ∀ spec ∈ stopMarkers, spec.priority = 1 ∨ spec.priority = 2 := by
  intro spec hspec
  simp only [stopMarkers, List.mem_cons, List.not_mem_nil, or_false] at hspec
  rcases hspec with rfl | rfl | rfl | rfl | rfl | rfl <;> simp

/-- Every found marker carries priority 1 or 2. -/
theorem rawFoundMarkers_prio (nt : List Char) :
    ∀ m ∈ rawFoundMarkers nt, m.priority = 1 ∨ m.priority = 2 := by
  intro m hm
  unfold rawFoundMarkers at hm
  refine foldl_inv _ (fun x : Marker => x.priority = 1 ∨ x.priority = 2) _ [] (by simp) ?_ m hm
  intro acc spec hspec hacc x hx
  refine foldl_inv _ _ _ acc hacc ?_ x hx
  intro acc2 md _ hacc2 y hy
  simp only [addMarker] at hy
  split at hy
  · exact hacc2 y hy
  · rcases List.mem_append.mp hy with hy | hy
    · exact hacc2 y hy
    · rcases List.mem_singleton.mp hy with rfl
      exact stopMarkers_prio spec hspec

theorem foldl_max_init_le :
    ∀ (ms : List Marker) (b : Nat), b ≤ ms.foldl (fun a m => Nat.max a m.priority) b := by
  intro ms
  induction ms with
  | nil => intro b; simp
  | cons m t ih => intro b; exact le_trans (Nat.le_max_left b m.priority) (ih _)

theorem le_maxPrio_aux :
    ∀ (ms : List Marker) (b : Nat) (m : Marker), m ∈ ms →
      m.priority ≤ ms.foldl (fun a m => Nat.max a m.priority) b := by
  intro ms
  induction ms with
  | nil => intro b m hm; simp at hm
  | cons m2 t ih =>
    intro b m hm
    rcases List.mem_cons.mp hm with rfl | hm
    · exact le_trans (Nat.le_max_right b m.priority) (foldl_max_init_le t _)
    · exact ih _ m hm

theorem le_maxPrio {ms : List Marker} {m : Marker} (hm : m ∈ ms) : m.priority ≤ maxPrio ms :=
  le_maxPrio_aux ms 0 m hm

theorem maxPrio_le {ms : List Marker} (h : ∀ m ∈ ms, m.priority ≤ 2) : maxPrio ms ≤ 2 := by
  unfold maxPrio
  have aux : ∀ (l : List Marker) (b : Nat), b ≤ 2 → (∀ m ∈ l, m.priority ≤ 2) →
      l.foldl (fun a m => Nat.max a m.priority) b ≤ 2 := by
    intro l
    induction l with
    | nil => intro b hb _; simpa using hb
    | cons m t ih =>
      intro b hb hl
      exact ih _ (Nat.max_le.mpr ⟨hb, hl m (List.mem_cons_self m t)⟩)
        (fun x hx => hl x (List.mem_cons_of_mem m hx))
  exact aux ms 0 (by omega) h

theorem markerLeB_total : ∀ a b : Marker, markerLeB a b = false → markerLeB b a = true := by
  intro a b h
  simp only [markerLeB, decide_eq_false_iff_not, not_le] at h
  simp only [markerLeB, decide_eq_true_eq]
  omega

theorem markerLeB_trans :
    ∀ a b c : Marker, markerLeB a b = true → markerLeB b c = true → markerLeB a c = true := by
  intro a b c h1 h2
  simp only [markerLeB, decide_eq_true_eq] at h1 h2 ⊢
  omega

theorem jsIndexOfAux_ge (sub : List Char) :
    ∀ (hay : List Char) (i j : Nat), jsIndexOfAux sub hay i = some j → i ≤ j := by
  intro hay
  induction hay with
  | nil =>
    intro i j h
    unfold jsIndexOfAux at h
    split at h
    · cases h; omega
    · cases h
  | cons c t ih =>
    intro i j h
    unfold jsIndexOfAux at h
    split at h
    · cases h; omega
    · exact le_trans (by omega) (ih (i + 1) j h)

theorem jsIndexOf_ge {hay sub : List Char} {f j : Nat} (h : jsIndexOf hay sub f = some j) :
    f ≤ j := jsIndexOfAux_ge sub (hay.drop f) f j h

/-- The legacy fallback markers come out ordered by text offset. -/
theorem legacyMarkers_sorted (nt : List Char) :
    (legacyMarkers nt).Pairwise (fun a b : Marker => a.index ≤ b.index) := by
  unfold legacyMarkers
  dsimp only
  cases hp : jsIndexOf (lowStr nt) (strL ("pickup")) 0 with
  | none =>
    cases hd : jsIndexOf (lowStr nt) (strL ("delivery")) 0 with
    | none => simp
    | some j => simp
  | some i =>
    cases hd : jsIndexOf (lowStr nt) (strL ("delivery")) (i + 1) with
    | none => simp
    | some j =>
      have hij : i + 1 ≤ j := jsIndexOf_ge hd
      apply List.Pairwise.cons
      · intro b hb
        have hb2 : b = ⟨j, StopType.delivery, strL ("Delivery"), 1⟩ := by
          simpa using hb
        subst hb2
        show i ≤ j
        omega
      · simp

/-- The markers used for sectioning are sorted by text offset. -/
theorem markersKept_sorted (input : List Char) :
    (markersKept input).Pairwise (fun a b : Marker => a.index ≤ b.index) := by
  show (markersFinalN (normalizeText input)).Pairwise _
  unfold markersFinalN
  dsimp only
  split
  · exact legacyMarkers_sorted (normalizeText input)
  · have hs := insSort_pairwise markerLeB_total markerLeB_trans
      (filteredMarkers (normalizeText input))
    exact hs.imp (fun h => by simpa [markerLeB] using h)

theorem buildStopsAux_length (nt : List Char) :
    ∀ ms : List Marker, (buildStopsAux nt ms).length = ms.length := by
  intro ms
  induction ms with
  | nil => simp [buildStopsAux]
  | cons m rest ih => simp [buildStopsAux, ih]

/-- The i-th stop before deduplication takes its type and label from the
    i-th sectioning marker. -/
theorem buildStopsAux_get? (nt : List Char) :
    ∀ (ms : List Marker) (i : Nat),
      ((buildStopsAux nt ms).get? i).map Stop.type = (ms.get? i).map Marker.type ∧
      ((buildStopsAux nt ms).get? i).map Stop.label = (ms.get? i).map Marker.label := by
  intro ms
  induction ms with
  | nil => intro i; simp [buildStopsAux]
  | cons m rest ih =>
    intro i
    cases i with
    | zero => simp [buildStopsAux, buildStop_type, buildStop_label]
    | succ i2 => simpa [buildStopsAux] using ih i2

/-! ## Weight normalization lemmas -/

theorem mem_jsTrim {x : Char} {l : List Char} (h : x ∈ jsTrim l) : x ∈ l := by
  unfold jsTrim at h
  rw [List.mem_reverse] at h
  have h2 := (List.dropWhile_sublist _).subset h
  rw [List.mem_reverse] at h2
  exact (List.dropWhile_sublist _).subset h2

theorem comma_notin_removeCommas (l : List Char) : ',' ∉ removeCommas l := by
  intro h
  have h2 := List.mem_filter.mp h
  simp at h2

theorem normalizeWeight_spec (w : List Char) (h : normalizeWeight w ≠ []) :
    (∃ pre, normalizeWeight w = pre ++ strL (" LBS")) ∧ ',' ∉ normalizeWeight w := by
  revert h
  simp only [normalizeWeight]
  split
  · intro h; exact absurd rfl h
  · split
    next h2 => intro h; exact absurd rfl h
    next h2 =>
      intro _
      refine ⟨⟨jsTrim (removeCommas w), rfl⟩, ?_⟩
      intro hmem
      rcases List.mem_append.mp hmem with hmem | hmem
      · exact comma_notin_removeCommas w (mem_jsTrim hmem)
      · exact absurd hmem (by decide)

/-! ## The claims -/

/-- Claim C1: for every input string, parseRateConfirmation terminates
    normally and returns a ParsedRateCon record in which every field is
    defined; unmatched fields are the empty string and stops may be the
    empty sequence (witnessed concretely at the empty input, where every
    field is empty and only the preview holds its fixed suffix). -/
theorem claim1_parse_total :
    (∀ input : List Char, ∃ r : ParsedRateCon, parseRateConfirmation input = r) ∧
    parseRateConfirmation [] =
      { loadNumber := [], weight := [], rate := [], stops := [], pickupTime := [],
        pickupDate := [], deliveryTime := [], originAddress := [], destinationAddress := [],
        rawTextPreview := strL ("...") } :=
  ⟨fun input => ⟨parseRateConfirmation input, rfl⟩, by decide⟩

/-- Claim C2 counterexample: an input containing both the substring
    Weight: 45000 lbs and the substring Total: $1,250.00 whose extracted
    rate is not 1250.00 — a later Total with a USD token outscores it, so
    the claim quantified over all containing texts is false. -/
theorem claim2_counterex :
    hasSub (strL ("Weight: 45000 lbs Total: $1,250.00 Total USD $9,999.00"))
        (strL ("Weight: 45000 lbs")) = true ∧
    hasSub (strL ("Weight: 45000 lbs Total: $1,250.00 Total USD $9,999.00"))
        (strL ("Total: $1,250.00")) = true ∧
    (parseRateConfirmation
        (strL ("Weight: 45000 lbs Total: $1,250.00 Total USD $9,999.00"))).rate ≠
      strL ("1250.00") ∧
    (parseRateConfirmation
        (strL ("Weight: 45000 lbs Total: $1,250.00 Total USD $9,999.00"))).rate =
      strL ("9999.00") := by decide

/-- Claim C2 amended: for the input consisting of exactly the two
    substrings of the claim, the scored rate selection prefers the
    currency-marked Total amount: the rate is 1250.00 and not 45000. -/
theorem claim2_amended :
    (parseRateConfirmation (strL ("Weight: 45000 lbs\nTotal: $1,250.00"))).rate =
      strL ("1250.00") ∧
    (parseRateConfirmation (strL ("Weight: 45000 lbs\nTotal: $1,250.00"))).rate ≠
      strL ("45000") := by decide

/-- Claim C3 counterexample: a rate match whose text contains the
    currency code CAD receives no +10 bonus: it scores 15, exactly like
    the same match without CAD, while the scoring the spec describes
    (rateScoreSpecCurrency) gives it 25. -/
theorem claim3_counterex :
    hasSub (upStr (strL ("Total CAD $300.00"))) (strL ("CAD")) = true ∧
    rateScore (strL ("Total CAD $300.00")) ⟨300, 0⟩ = 15 ∧
    rateScoreSpecCurrency (strL ("Total CAD $300.00")) ⟨300, 0⟩ = 25 ∧
    rateScore (strL ("Total CAD $300.00")) ⟨300, 0⟩ =
      rateScore (strL ("Total $300.00")) ⟨300, 0⟩ := by decide

/-- Claim C3 amended: the currency-code bonus is granted only for USD;
    CAD and GBP confer no bonus.  Precisely, the spec-described scoring
    exceeds the implemented scoring by exactly 10 on the matches that
    contain CAD or GBP but not USD, and agrees everywhere else. -/
theorem claim3_amended (m0 : List Char) (num : JsNum) :
    rateScoreSpecCurrency m0 num = rateScore m0 num +
      (if hasSub (upStr m0) (strL ("USD")) = false ∧
          (hasSub (upStr m0) (strL ("CAD")) = true ∨ hasSub (upStr m0) (strL ("GBP")) = true)
        then 10 else 0) := by
  unfold rateScore rateScoreSpecCurrency
  cases h1 : hasSub (upStr m0) (strL ("USD")) <;>
    cases h2 : hasSub (upStr m0) (strL ("CAD")) <;>
      cases h3 : hasSub (upStr m0) (strL ("GBP")) <;>
        simp [h1, h2, h3] <;> omega

/-- Claim C4: if any tier-2 (priority 2) stop marker was found, every
    marker used for sectioning has priority 2, so no tier-1-only marker
    contributes a stop. -/
theorem claim4_tier2_discards_tier1 (input : List Char)
    (h : ∃ m ∈ markersFound input, m.priority = 2) :
    ∀ m ∈ markersKept input, m.priority = 2 := by
  obtain ⟨m2, hm2, hp2⟩ := h
  intro m hm
  have hall := rawFoundMarkers_prio (normalizeText input)
  have hle : maxPrio (rawFoundMarkers (normalizeText input)) ≤ 2 :=
    maxPrio_le (fun x hx => by rcases hall x hx with h | h <;> omega)
  have hm2b : m2 ∈ rawFoundMarkers (normalizeText input) := hm2
  have hge : 2 ≤ maxPrio (rawFoundMarkers (normalizeText input)) := hp2 ▸ le_maxPrio hm2b
  have hmp : maxPrio (rawFoundMarkers (normalizeText input)) = 2 := le_antisymm hle hge
  have hfil : filteredMarkers (normalizeText input)
      = (rawFoundMarkers (normalizeText input)).filter (fun m => m.priority == 2) := by
    unfold filteredMarkers
    dsimp only
    rw [hmp]
    simp
  have hm2f : m2 ∈ filteredMarkers (normalizeText input) := by
    rw [hfil]
    exact List.mem_filter.mpr ⟨hm2b, by simp [hp2]⟩
  cases hsm : insSort markerLeB (filteredMarkers (normalizeText input)) with
  | nil =>
    exfalso
    have h4 := (mem_insSort markerLeB).mpr hm2f
    rw [hsm] at h4
    simp at h4
  | cons a t =>
    have hkept : markersKept input = a :: t := by
      show markersFinalN (normalizeText input) = a :: t
      unfold markersFinalN
      dsimp only
      rw [hsm]
      simp
    rw [hkept] at hm
    have h5 : m ∈ insSort markerLeB (filteredMarkers (normalizeText input)) := by
      rw [hsm]; exact hm
    have h6 := (mem_insSort markerLeB).mp h5
    rw [hfil] at h6
    have h7 := List.mem_filter.mp h6
    simpa using h7.2

/-- Witness for C4 at a concrete input holding a tier-2 marker. -/
theorem claim4_witness :
    (∃ m ∈ markersFound (strL ("Stop #1: Pick")), m.priority = 2) ∧
    ∀ m ∈ markersKept (strL ("Stop #1: Pick")), m.priority = 2 :=
  ⟨by decide, claim4_tier2_discards_tier1 (strL ("Stop #1: Pick")) (by decide)⟩

/-- Claim C5: the final stops carry pairwise distinct addresses, form an
    order-preserving sublist of the stops before deduplication, and each
    kept stop is the first detected stop with its address. -/
theorem claim5_stops_dedup (input : List Char) :
    (parseRateConfirmation input).stops.Pairwise (fun a b => a.address ≠ b.address) ∧
    (parseRateConfirmation input).stops.Sublist (stopsBeforeDedup input) ∧
    ∀ s ∈ (parseRateConfirmation input).stops,
      (stopsBeforeDedup input).find? (fun x => x.address == s.address) = some s := by
  obtain ⟨s2, heq, hsub, hpw, hmem⟩ := dedupeGo_spec (stopsBeforeDedup input) []
  have heq2 : (parseRateConfirmation input).stops = s2 := by
    show dedupeStops (stopsBeforeDedup input) = s2
    rw [dedupeStops, heq]; rfl
  rw [heq2]
  exact ⟨hpw, hsub, fun s hs => (hmem s hs).2.2⟩

/-- Witness for C5 at a concrete one-stop input. -/
theorem claim5_witness :
    (⟨StopType.pickup, strL ("12 Elm Street Reno, NV 89501"), [], [], strL ("Pickup")⟩ : Stop) ∈
      (parseRateConfirmation (strL ("Origin: 12 Elm Street Reno, NV 89501"))).stops ∧
    (stopsBeforeDedup (strL ("Origin: 12 Elm Street Reno, NV 89501"))).find?
        (fun x => x.address ==
          (⟨StopType.pickup, strL ("12 Elm Street Reno, NV 89501"), [], [],
            strL ("Pickup")⟩ : Stop).address) =
      some ⟨StopType.pickup, strL ("12 Elm Street Reno, NV 89501"), [], [], strL ("Pickup")⟩ :=
  ⟨by decide, (claim5_stops_dedup (strL ("Origin: 12 Elm Street Reno, NV 89501"))).2.2 _
    (by decide)⟩

/-- Claim C6: when the final stops hold at least one delivery stop, the
    destination address and delivery time come from the last delivery stop,
    which is also the last delivery stop with a non-empty address since
    every kept delivery stop has one (the fallback the spec mentions for
    address-less deliveries can therefore never fire). -/
theorem claim6_last_delivery (input : List Char) (h : deliveriesOf input ≠ []) :
    (parseRateConfirmation input).destinationAddress = ((deliveriesOf input).getLast h).address ∧
    (parseRateConfirmation input).deliveryTime = ((deliveriesOf input).getLast h).time ∧
    ∀ s ∈ deliveriesOf input, s.address ≠ [] := by
  have hd : (parseRateConfirmation input).destinationAddress =
      match (deliveriesOf input).getLast? with | some d => d.address | none => [] := rfl
  have ht : (parseRateConfirmation input).deliveryTime =
      match (deliveriesOf input).getLast? with | some d => d.time | none => [] := rfl
  have hl := List.getLast?_eq_getLast_of_ne_nil h
  rw [hd, ht, hl]
  refine ⟨rfl, rfl, ?_⟩
  intro s hs
  have hs2 := List.mem_filter.mp hs
  exact ((stops_addr_good input) s hs2.1).1

/-- Witness for C6 at a concrete input with one delivery stop. -/
theorem claim6_witness :
    ∃ h : deliveriesOf (strL ("Consignee: 123 Main Street Dallas, TX 75201")) ≠ [],
      (parseRateConfirmation
          (strL ("Consignee: 123 Main Street Dallas, TX 75201"))).destinationAddress =
        ((deliveriesOf (strL ("Consignee: 123 Main Street Dallas, TX 75201"))).getLast h).address :=
  ⟨by decide,
    (claim6_last_delivery (strL ("Consignee: 123 Main Street Dallas, TX 75201")) (by decide)).1⟩

/-- Claim C7: time normalization maps 2:00 PM to 14:00, 1400 to 14:00 and
    TBD to TBD. -/
theorem claim7_time_normalization :
    normalizeTime (strL ("2:00 PM")) = strL ("14:00") ∧
    normalizeTime (strL ("1400")) = strL ("14:00") ∧
    normalizeTime (strL ("TBD")) = strL ("TBD") := by decide

/-- Claim C8: a non-empty weight field ends with the literal suffix
    a-space-LBS and contains no comma. -/
theorem claim8_weight_suffix (input : List Char)
    (h : (parseRateConfirmation input).weight ≠ []) :
    (∃ pre, (parseRateConfirmation input).weight = pre ++ strL (" LBS")) ∧
    ',' ∉ (parseRateConfirmation input).weight := by
  have hw : (parseRateConfirmation input).weight
      = normalizeWeight (extract PATTERNS.weight (normalizeText input)) := rfl
  rw [hw] at h ⊢
  exact normalizeWeight_spec _ h

/-- Witness for C8 at a concrete input with a comma-grouped weight. -/
theorem claim8_witness :
    (parseRateConfirmation (strL ("Weight: 45,000 lbs"))).weight ≠ [] ∧
    ((∃ pre, (parseRateConfirmation (strL ("Weight: 45,000 lbs"))).weight =
        pre ++ strL (" LBS")) ∧
      ',' ∉ (parseRateConfirmation (strL ("Weight: 45,000 lbs"))).weight) :=
  ⟨by decide, claim8_weight_suffix (strL ("Weight: 45,000 lbs")) (by decide)⟩

/-- Claim C9 counterexample: the Stop record of the code has no sequence
    field, and the surviving stop of this two-marker input sits at list
    position 1 while being the second detected stop: its 1-based ordinal
    among detected stops (2) is recorded nowhere. -/
theorem claim9_counterex :
    (stopsBeforeDedup (strL ("Stop #1: Pick\nStop #2: Del 500 Oak Street Dallas, TX 75201"))).length = 2 ∧
    (parseRateConfirmation
        (strL ("Stop #1: Pick\nStop #2: Del 500 Oak Street Dallas, TX 75201"))).stops.length = 1 ∧
    (parseRateConfirmation
        (strL ("Stop #1: Pick\nStop #2: Del 500 Oak Street Dallas, TX 75201"))).stops.get? 0 =
      (stopsBeforeDedup
        (strL ("Stop #1: Pick\nStop #2: Del 500 Oak Street Dallas, TX 75201"))).get? 1 ∧
    (stopsBeforeDedup
        (strL ("Stop #1: Pick\nStop #2: Del 500 Oak Street Dallas, TX 75201"))).get? 1 ≠
      (stopsBeforeDedup
        (strL ("Stop #1: Pick\nStop #2: Del 500 Oak Street Dallas, TX 75201"))).get? 0 := by
  decide

/-- Claim C9 amended: the sectioning markers are sorted by text offset
    ascending and the i-th stop generated before deduplication takes its
    type and label from the i-th marker; the Stop record stores no
    sequence field, and positions in the final list can differ from
    detected ordinals because deduplication drops stops. -/
theorem claim9_amended (input : List Char) :
    (markersKept input).Pairwise (fun a b => a.index ≤ b.index) ∧
    (stopsBeforeDedup input).length = (markersKept input).length ∧
    ∀ i : Nat,
      ((stopsBeforeDedup input).get? i).map Stop.type =
        ((markersKept input).get? i).map Marker.type ∧
      ((stopsBeforeDedup input).get? i).map Stop.label =
        ((markersKept input).get? i).map Marker.label := by
  refine ⟨markersKept_sorted input, ?_, ?_⟩
  · exact buildStopsAux_length (normalizeText input) (markersFinalN (normalizeText input))
  · intro i
    exact buildStopsAux_get? (normalizeText input) (markersFinalN (normalizeText input)) i

/-- Claim C10: every stop of the final result has a non-empty address at
    least 5 characters long containing no blacklisted substring. -/
theorem claim10_stop_address_invariant (input : List Char) :
    ∀ s ∈ (parseRateConfirmation input).stops,
      s.address ≠ [] ∧ 5 ≤ s.address.length ∧
      ∀ b ∈ blacklist, hasSub (upStr s.address) (upStr b) = false :=
  stops_addr_good input

/-- Witness for C10 at a concrete one-stop input. -/
theorem claim10_witness :
    (⟨StopType.pickup, strL ("77 Pine Street Akron, OH 44301"), [], [], strL ("Pickup")⟩ : Stop) ∈
      (parseRateConfirmation (strL ("Shipper: 77 Pine Street Akron, OH 44301"))).stops ∧
    ((⟨StopType.pickup, strL ("77 Pine Street Akron, OH 44301"), [], [],
        strL ("Pickup")⟩ : Stop).address ≠ [] ∧
      5 ≤ (⟨StopType.pickup, strL ("77 Pine Street Akron, OH 44301"), [], [],
        strL ("Pickup")⟩ : Stop).address.length ∧
      ∀ b ∈ blacklist,
        hasSub (upStr (⟨StopType.pickup, strL ("77 Pine Street Akron, OH 44301"), [], [],
          strL ("Pickup")⟩ : Stop).address) (upStr b) = false) :=
  ⟨by decide,
    claim10_stop_address_invariant (strL ("Shipper: 77 Pine Street Akron, OH 44301"))
      ⟨StopType.pickup, strL ("77 Pine Street Akron, OH 44301"), [], [], strL ("Pickup")⟩
      (by decide)⟩

end Dakota
